import Mathlib

/-!
# p2p_chat: a shallow embedding of `main.go`

The Go program is a libp2p chat node.  Everything the program does itself
(the receive loop `handleStream`, the send loop `sendMessage`, the discovery
callback `HandlePeerFound`, `setupDHT`, `setupMDNSDiscovery` and `main` with
its command loop) is embedded here as pure functions that return the list of
observable actions they perform.  Calls into libp2p, multiaddr and the
operating system are inputs of the model: their results are supplied by an
environment record.

The console is given by the results of the successive reads of `os.Stdin` that a
loop performs, the outbound stream by the number of bytes it accepts before its
writes fail.

Go strings are modelled as lists of characters.  The only byte the program
inspects individually is the space `0x20`, which in UTF-8 never occurs inside
a multi-byte character, and `strings.TrimSpace` works on code points.
-/

namespace P2PChat

/-- A Go `string`. -/
abbrev Str := List Char

/-- A Go `error` value. -/
inductive Err
  | EOF
  | other (text : Str)
deriving DecidableEq, Repr

/-- Go `peer.ID`. -/
abbrev PeerID := Str

/-- Go `multiaddr.Multiaddr`, by its textual form. -/
abbrev Multiaddr := Str

/-- Go `peer.AddrInfo`. -/
structure AddrInfo where
  ID : PeerID
  Addrs : List Multiaddr
deriving DecidableEq, Repr

/-- The space character, the delimiter that `handleStream` passes to `ReadString`. -/
def space : Char := Char.ofNat 32

/-- The newline character, the delimiter of the console reads. -/
def newline : Char := Char.ofNat 10

/-- The constant `chatProtocolID`. -/
def chatProtocolID : Str := "/chat/1.0.0".toList

/-- The constant `serviceTag`. -/
def serviceTag : Str := "p2p-chat-service".toList

/-- The literal `"exit"` both loops compare the trimmed input with. -/
def exitCmd : Str := "exit".toList

/-- Go `unicode.IsSpace`: the Latin-1 cases spelled out in its source, then the
`White_Space` table above Latin-1. -/
def isSpace (c : Char) : Bool :=
  let n := c.toNat
  (9 ≤ n && n ≤ 13) || n == 32 || n == 0x85 || n == 0xA0 || n == 0x1680 ||
  (0x2000 ≤ n && n ≤ 0x200a) || n == 0x2028 || n == 0x2029 || n == 0x202f ||
  n == 0x205f || n == 0x3000

/-- Go `strings.TrimSpace`: the string without its leading and trailing white space. -/
def TrimSpace (s : Str) : Str :=
  ((s.dropWhile isSpace).reverse.dropWhile isSpace).reverse

/-- Go `bufio.Reader.ReadString(delim)` over the bytes that are still to arrive
before the stream ends.  The result is the string read, and either `some rest`
(the delimiter was found; the string returned ends with it) or `none` (the
stream ended first; the string returned is what had been read and the call
returns the stream's error). -/
def ReadString (delim : Char) : Str → Str × Option Str
  | [] => ([], none)
  | c :: cs =>
    if c = delim then ([c], some cs)
    else ((c :: (ReadString delim cs).1), (ReadString delim cs).2)

/-- The inbound side of a `network.Stream`: the bytes that arrive, and the error
the read after the last byte returns (`io.EOF` when the peer closed cleanly). -/
structure InStream where
  data : Str
  endErr : Err
deriving DecidableEq, Repr

/-- Operations a program can perform on the outbound side of a `network.Stream`:
a call `Write(p)` of which the stream took the first `n` bytes, and a close. -/
inductive StreamOp
  | write (p : Str) (n : Nat)
  | close
deriving DecidableEq, Repr

/-- Observable actions of the program, one constructor per statement of `main.go`
that prints, logs, or calls into the host. -/
inductive Event
  /-- Source: `fmt.Printf("\n📩 Received: %s", msg)` -/
  | received (msg : Str)
  /-- Source: `log.Println("Stream closed:", err)` -/
  | logStreamClosed (err : Err)
  /-- Source: `log.Println("❌ Error starting mDNS discovery:", err)` -/
  | logMdnsError (err : Err)
  /-- Source: `fmt.Println("✅ mDNS Discovery started...")` -/
  | mdnsStarted
  /-- Source: `fmt.Println("👀 Discovered peer:", peerInfo.ID)` -/
  | discovered (id : PeerID)
  /-- Source: a call `host.Connect(ctx, peerInfo)` -/
  | connect (peerInfo : AddrInfo)
  /-- Source: `fmt.Println("❌ Error opening stream:", err)` -/
  | errorOpeningStream (err : Err)
  /-- Source: `fmt.Print("\n💬 Enter message: ")` -/
  | promptMessage
  /-- Source: `fmt.Println("👋 Exiting chat...")` -/
  | exitingChat
  /-- Source: `fmt.Println("✅ Kademlia DHT initialized...")` -/
  | dhtInitialized
  /-- Source: `log.Fatal(err)` after `createHost` -/
  | fatalHost (err : Err)
  /-- Source: `log.Fatal("DHT setup error:", err)` -/
  | fatalDHT (err : Err)
  /-- Source: `fmt.Println("\n🚀 Peer started with ID:", node.ID())` -/
  | peerStarted (id : PeerID)
  /-- Source: `fmt.Println("📡 Listening on:", ...)` -/
  | listening (addr : Str)
  /-- Source: `node.SetStreamHandler(protocol.ID(chatProtocolID), handleStream)` -/
  | setStreamHandler (proto : Str)
  /-- Source: `fmt.Println("\n🔍 Enter peer multiaddress (or 'exit' to quit):")` -/
  | promptAddress
  /-- Source: `fmt.Println("👋 Exiting P2P network...")` -/
  | exitingNetwork
  /-- Source: `fmt.Println("❌ Invalid multiaddr:", err)` -/
  | invalidMultiaddr (err : Err)
  /-- Source: `fmt.Println("❌ Could not parse peer address:", err)` -/
  | couldNotParse (err : Err)
  /-- Source: `fmt.Println("❌ Could not connect to peer:", err)` -/
  | couldNotConnect (err : Err)
  /-- Source: `fmt.Println("✅ Connected to peer:", peerInfo.ID)` -/
  | connected (id : PeerID)
  /-- Source: `go sendMessage(node, peerInfo.ID)` -/
  | goSendMessage (id : PeerID)
  /-- Source: `time.Sleep(2 * time.Second)` -/
  | sleep
  /-- Source: the deferred `node.Close()` -/
  | hostClose
deriving DecidableEq, Repr

/-- The loop of `handleStream` on the bytes still to arrive: `fuel` bounds the
number of iterations, `out` is what has been printed so far.  `none` means the
bound was reached before the loop returned. -/
def handleStreamLoop (endErr : Err) : Nat → Str → List Event → Option (List Event)
  | 0, _, _ => none
  | fuel + 1, s, out =>
    match ReadString space s with
    | (_, none) => some (out ++ [Event.logStreamClosed endErr])
    | (msg, some rest) => handleStreamLoop endErr fuel rest (out ++ [Event.received msg])

/-- Source `handleStream(stream)`: each iteration consumes at least one byte or returns,
so one more iteration than there are bytes is always enough. -/
def handleStream (stream : InStream) : Option (List Event) :=
  handleStreamLoop stream.endErr (stream.data.length + 1) stream.data []

/-- The messages handed to `fmt.Printf` in a trace, in order. -/
def delivered : List Event → List Str
  | [] => []
  | Event.received m :: es => m :: delivered es
  | _ :: es => delivered es

/-- The messages `handleStream` delivers on a stream (none if it did not return). -/
def deliveredOn (stream : InStream) : List Str :=
  match handleStream stream with
  | some t => delivered t
  | none => []

/-- The bytes a sequence of stream operations has put on the wire. -/
def streamBytes : List StreamOp → Str
  | [] => []
  | StreamOp.write p n :: ops => p.take n ++ streamBytes ops
  | StreamOp.close :: ops => streamBytes ops

/-- The outbound side of a `network.Stream`: the operations performed on it so far,
and how its writes behave: with `room = none` every write succeeds, with
`room = some k` the stream takes `k` more bytes and the write that exceeds them
returns `failErr`. -/
structure OutStream where
  ops : List StreamOp
  room : Option Nat
  failErr : Err
deriving DecidableEq, Repr

/-- Go `stream.Write(p)`: the stream afterwards, the number of bytes taken, the error. -/
def OutStream.Write (o : OutStream) (p : Str) : OutStream × Nat × Option Err :=
  match o.room with
  | none => (⟨o.ops ++ [StreamOp.write p p.length], none, o.failErr⟩, p.length, none)
  | some k =>
    if p.length ≤ k then
      (⟨o.ops ++ [StreamOp.write p p.length], some (k - p.length), o.failErr⟩, p.length, none)
    else (⟨o.ops ++ [StreamOp.write p k], some 0, o.failErr⟩, k, some o.failErr)

/-- The size of the buffer that `bufio.NewWriter` allocates. -/
def bufSize : Nat := 4096

/-- Go `bufio.Writer`: the bytes buffered and not yet written, the error of the first
failed write (after which the writer accepts no data), and the stream underneath. -/
structure Writer where
  buf : Str
  err : Option Err
  out : OutStream
deriving DecidableEq, Repr

/-- Go `bufio.Writer.Available`. -/
def Writer.Available (w : Writer) : Nat := bufSize - w.buf.length

/-- Go `bufio.Writer.Flush`: nothing happens after an earlier error or on an empty
buffer; otherwise the buffer is written to the stream, and on an error the bytes
not taken stay in the buffer and the error is kept. -/
def Writer.Flush (w : Writer) : Writer :=
  if w.err ≠ none then w
  else if w.buf = [] then w
  else
    match (w.out.Write w.buf).2.2 with
    | some e => ⟨w.buf.drop (w.out.Write w.buf).2.1, some e, (w.out.Write w.buf).1⟩
    | none => ⟨[], none, (w.out.Write w.buf).1⟩

/-- The `for` loop of Go `bufio.Writer.WriteString`: while the text does not fit into
the free part of the buffer and no write has failed, the buffer is filled up and
flushed.  The result is the writer and the text still to be copied.  (The stream is
taken not to offer `WriteString` itself.) -/
def Writer.WriteStringLoop : Nat → Writer → Str → Writer × Str
  | 0, w, s => (w, s)
  | fuel + 1, w, s =>
    if w.Available < s.length ∧ w.err = none then
      Writer.WriteStringLoop fuel
        (Writer.Flush ⟨w.buf ++ s.take w.Available, w.err, w.out⟩) (s.drop w.Available)
    else (w, s)

/-- Go `bufio.Writer.WriteString`: after the loop, the rest of the text is copied into
the buffer unless a write has failed.  Every iteration but the first moves a full
buffer, so one more iteration than the text has bytes is always enough. -/
def Writer.WriteString (w : Writer) (s : Str) : Writer :=
  let r := Writer.WriteStringLoop (s.length + 1) w s
  if r.1.err ≠ none then r.1 else ⟨r.1.buf ++ r.2, r.1.err, r.1.out⟩

/-- Source `writer.WriteString(text); writer.Flush()` in `sendMessage`, both results
dropped. -/
def writeAndFlush (w : Writer) (text : Str) : Writer :=
  (w.WriteString text).Flush

/-- Source `reader := bufio.NewReader(os.Stdin); text, _ := reader.ReadString('\n')`,
as both loops do in every iteration.  `stdin` holds the results of the reads of
`os.Stdin` still to come for this loop, an empty result or the end of the list
being end of input.  The new reader reads until a result contains a newline and
returns the text up to it; what that result holds after the newline stays in the
reader, which is dropped at the end of the iteration.  At end of input the text read
so far is returned and the error is dropped. -/
def readLine : List Str → Str × List Str
  | [] => ([], [])
  | chunk :: rest =>
    if chunk = [] then ([], rest)
    else
      match ReadString newline chunk with
      | (line, some _) => (line, rest)
      | (part, none) => (part ++ (readLine rest).1, (readLine rest).2)

/-- The texts that the first `n` iterations of a loop over `readLine` obtain. -/
def linesRead : Nat → List Str → List Str
  | 0, _ => []
  | n + 1, stdin => (readLine stdin).1 :: linesRead n (readLine stdin).2

/-- The console input left after `n` iterations of a loop over `readLine`. -/
def stdinAfter : Nat → List Str → List Str
  | 0, stdin => stdin
  | n + 1, stdin => stdinAfter n (readLine stdin).2

/-- What a run of `sendMessage` has done when it returns or when the iteration bound
is reached (`returned = false`); `writer` is `none` when no stream was opened. -/
structure SendRun where
  console : List Event
  writer : Option Writer
  stdin : List Str
  returned : Bool
deriving DecidableEq, Repr

/-- The `for` loop of `sendMessage`. -/
def sendMessageLoop : Nat → List Str → Writer → List Event → SendRun
  | 0, stdin, w, out => ⟨out, some w, stdin, false⟩
  | fuel + 1, stdin, w, out =>
    let text := (readLine stdin).1
    if TrimSpace text = exitCmd then
      ⟨out ++ [Event.promptMessage, Event.exitingChat], some w, (readLine stdin).2, true⟩
    else
      sendMessageLoop fuel (readLine stdin).2 (writeAndFlush w text)
        (out ++ [Event.promptMessage])

/-- Source `sendMessage(h, peerID)`.  `NewStream` is the outcome of `h.NewStream` for a
peer: an error, or a new stream given by the room and the error of its writes. -/
def sendMessage (NewStream : PeerID → Except Err (Option Nat × Err)) (peerID : PeerID)
    (fuel : Nat) (stdin : List Str) : SendRun :=
  match NewStream peerID with
  | .error err => ⟨[Event.errorOpeningStream err], none, stdin, true⟩
  | .ok (room, failErr) => sendMessageLoop fuel stdin ⟨[], none, ⟨[], room, failErr⟩⟩ []

/-- Go `host.Host` as far as the program looks at it, with the peers it currently has a
live connection to. -/
structure Host where
  ID : PeerID
  Addrs : List Multiaddr
  conns : List PeerID
deriving DecidableEq, Repr

/-- Source `type discoveryNotifee struct { host host.Host }`. -/
structure discoveryNotifee where
  host : Host
deriving DecidableEq, Repr

/-- Source `(n *discoveryNotifee) HandlePeerFound(peerInfo)`: the notice, then
`n.host.Connect`, whose result is dropped. -/
def discoveryNotifee.HandlePeerFound (_n : discoveryNotifee) (peerInfo : AddrInfo) :
    List Event :=
  [Event.discovered peerInfo.ID, Event.connect peerInfo]

/-- The results of the calls `main` makes into libp2p and multiaddr. `Connect` may
depend on everything that happened before the call. -/
structure Env where
  createHost : Except Err Host
  mdnsStart : Option Err
  dhtNew : Option Err
  dhtBootstrap : Option Err
  NewMultiaddr : Str → Except Err Multiaddr
  AddrInfoFromP2pAddr : Multiaddr → Except Err AddrInfo
  Connect : List Event → AddrInfo → Option Err

/-- Source `setupMDNSDiscovery(h)`. -/
def setupMDNSDiscovery (env : Env) : List Event :=
  match env.mdnsStart with
  | some err => [Event.logMdnsError err]
  | none => [Event.mdnsStarted]

/-- Source `setupDHT(ctx, h)`: what it prints and the error it returns. -/
def setupDHT (env : Env) : List Event × Option Err :=
  match env.dhtNew with
  | some err => ([], some err)
  | none =>
    match env.dhtBootstrap with
    | some err => ([], some err)
    | none => ([Event.dhtInitialized], none)

/-- How a run of `main` ends. -/
inductive Status
  /-- `main` returned: exit status 0 -/
  | returned
  /-- `log.Fatal`: exit status 1, deferred calls do not run -/
  | fatal
  /-- the iteration bound was reached inside the input loop -/
  | running
deriving DecidableEq, Repr

/-- One iteration of the input loop of `main` on the line read: the actions performed,
and whether the loop goes on (`continue` or the end of the body) or stops (`break`).
`before` is everything that happened before the iteration. -/
def cliIteration (env : Env) (before : List Event) (line : Str) : List Event × Bool :=
  let peerAddr := TrimSpace line
  if peerAddr = exitCmd then ([Event.promptAddress, Event.exitingNetwork], false)
  else
    match env.NewMultiaddr peerAddr with
    | .error err => ([Event.promptAddress, Event.invalidMultiaddr err], true)
    | .ok addr =>
      match env.AddrInfoFromP2pAddr addr with
      | .error err => ([Event.promptAddress, Event.couldNotParse err], true)
      | .ok peerInfo =>
        match env.Connect (before ++ [Event.promptAddress]) peerInfo with
        | some err =>
          ([Event.promptAddress, Event.connect peerInfo, Event.couldNotConnect err], true)
        | none =>
          ([Event.promptAddress, Event.connect peerInfo, Event.connected peerInfo.ID,
            Event.goSendMessage peerInfo.ID], true)

/-- The input loop of `main` and what follows it (the sleep and the deferred close). -/
def mainLoop (env : Env) : Nat → List Str → List Event → List Event × Status
  | 0, _, tr => (tr, Status.running)
  | fuel + 1, stdin, tr =>
    let step := cliIteration env tr (readLine stdin).1
    if step.2 then mainLoop env fuel (readLine stdin).2 (tr ++ step.1)
    else (tr ++ step.1 ++ [Event.sleep, Event.hostClose], Status.returned)

/-- Source `main()`. -/
def main (env : Env) (fuel : Nat) (stdin : List Str) : List Event × Status :=
  match env.createHost with
  | .error err => ([Event.fatalHost err], Status.fatal)
  | .ok node =>
    let started := [Event.peerStarted node.ID] ++
      node.Addrs.map (fun addr => Event.listening (addr ++ "/p2p/".toList ++ node.ID)) ++
      setupMDNSDiscovery env
    match setupDHT env with
    | (evs, some err) => (started ++ evs ++ [Event.fatalDHT err], Status.fatal)
    | (evs, none) =>
      mainLoop env fuel stdin (started ++ evs ++ [Event.setStreamHandler chatProtocolID])

/-- The round trip of one message: the text is written and flushed the way
`sendMessage` does, through a new writer on a stream that takes every byte, and
`handleStream` reads the bytes that reached the stream until the stream ends. -/
def roundTrip (M : Str) : List Str :=
  deliveredOn
    ⟨streamBytes (writeAndFlush ⟨[], none, ⟨[], none, Err.EOF⟩⟩ M).out.ops, Err.EOF⟩

/-- A frame: a text without a space, followed by one space. -/
def IsFrame (m : Str) : Prop := ∃ t, space ∉ t ∧ m = t ++ [space]

/-- The stream takes at least `n` more bytes without an error. -/
def Accepts (o : OutStream) (n : Nat) : Prop := ∀ k, o.room = some k → n ≤ k

/-- The peers passed to `host.Connect` in a trace, in order. -/
def connectCalls : List Event → List AddrInfo
  | [] => []
  | Event.connect peerInfo :: es => peerInfo :: connectCalls es
  | _ :: es => connectCalls es

/-- The peers for which a `sendMessage` goroutine is started in a trace, in order. -/
def sendSessions : List Event → List PeerID
  | [] => []
  | Event.goSendMessage id :: es => id :: sendSessions es
  | _ :: es => sendSessions es

/-- An environment in which the host is created, mDNS starts, `dht.New` succeeds and
`Bootstrap` fails; no address parses. -/
def envBootstrapFails : Env :=
  ⟨.ok ⟨"QmA".toList, ["/ip4/127.0.0.1/tcp/4001".toList], []⟩, none, none,
    some (Err.other "no peers".toList), fun _ => .error Err.EOF, fun _ => .error Err.EOF,
    fun _ _ => none⟩

/-- An environment in which startup succeeds, the text `addr` parses to the peer `QmB`
at that address and nothing else parses, and `Connect` has the given outcome. -/
def envOneAddr (connect : Option Err) : Env :=
  ⟨.ok ⟨"QmA".toList, [], []⟩, none, none, none,
    fun s => if s = "addr".toList then .ok s else .error (Err.other "bad".toList),
    fun a => .ok ⟨"QmB".toList, [a]⟩,
    fun _ _ => connect⟩

/-- A notifee whose host already has a live connection to the peer `QmB`. -/
def notifeeConnected : discoveryNotifee := ⟨⟨"QmA".toList, [], ["QmB".toList]⟩⟩

/-! ## `ReadString` -/

theorem ReadString_no_delim (d : Char) (s : Str) (h : d ∉ s) :
    ReadString d s = (s, none) := by
  induction s with
  | nil => rfl
  | cons c cs ih =>
    have hc : c ≠ d := fun hcd => h (by simp [hcd])
    have hcs : d ∉ cs := fun hm => h (List.mem_cons_of_mem _ hm)
    simp [ReadString, hc, ih hcs]

theorem ReadString_delim (d : Char) (t rest : Str) (h : d ∉ t) :
    ReadString d (t ++ d :: rest) = (t ++ [d], some rest) := by
  induction t with
  | nil => simp [ReadString]
  | cons c cs ih =>
    have hc : c ≠ d := fun hcd => h (by simp [hcd])
    have hcs : d ∉ cs := fun hm => h (List.mem_cons_of_mem _ hm)
    simp [ReadString, hc, ih hcs]

theorem ReadString_some (d : Char) (s m r : Str) (h : ReadString d s = (m, some r)) :
    ∃ t, d ∉ t ∧ m = t ++ [d] ∧ s = t ++ d :: r := by
  induction s generalizing m with
  | nil => simp [ReadString] at h
  | cons c cs ih =>
    by_cases hc : c = d
    · simp [ReadString, hc] at h
      exact ⟨[], by simp, by simp [h.1], by simp [hc, h.2]⟩
    · simp [ReadString, hc] at h
      obtain ⟨t, ht, hm, hs⟩ := ih (ReadString d cs).1 (Prod.ext rfl h.2)
      refine ⟨c :: t, ?_, ?_, ?_⟩
      · simp only [List.mem_cons, not_or]
        exact ⟨fun hdc => hc hdc.symm, ht⟩
      · rw [← h.1, hm]; rfl
      · rw [hs]; rfl

theorem ReadString_none (d : Char) (s m : Str) (h : ReadString d s = (m, none)) :
    d ∉ s ∧ m = s := by
  induction s generalizing m with
  | nil => simp [ReadString] at h; simp [h]
  | cons c cs ih =>
    by_cases hc : c = d
    · simp [ReadString, hc] at h
    · simp [ReadString, hc] at h
      obtain ⟨hd, hm⟩ := ih (ReadString d cs).1 (Prod.ext rfl h.2)
      refine ⟨?_, ?_⟩
      · simp only [List.mem_cons, not_or]
        exact ⟨fun hdc => hc hdc.symm, hd⟩
      · rw [← h.1, hm]

/-! ## The writer -/

theorem streamBytes_append (a b : List StreamOp) :
    streamBytes (a ++ b) = streamBytes a ++ streamBytes b := by
  induction a with
  | nil => rfl
  | cons x xs ih => cases x <;> simp [streamBytes, ih]

theorem accepts_mono (o : OutStream) (m n : Nat) (hmn : m ≤ n) (h : Accepts o n) :
    Accepts o m := fun k hk => Nat.le_trans hmn (h k hk)

theorem write_ok (o : OutStream) (p : Str) (x : Nat) (h : Accepts o (p.length + x)) :
    (o.Write p).2.1 = p.length ∧ (o.Write p).2.2 = none ∧
    streamBytes (o.Write p).1.ops = streamBytes o.ops ++ p ∧ Accepts (o.Write p).1 x := by
  rcases hr : o.room with _ | k
  · simp [OutStream.Write, hr, streamBytes_append, streamBytes, Accepts]
  · have hk : p.length + x ≤ k := h k hr
    have hp : p.length ≤ k := by omega
    simp only [OutStream.Write, hr, hp, if_true, streamBytes_append, streamBytes,
      List.take_length, List.append_nil, true_and]
    intro j hj
    simp at hj
    omega

theorem flush_ok (w : Writer) (x : Nat) (herr : w.err = none)
    (h : Accepts w.out (w.buf.length + x)) :
    w.Flush.buf = [] ∧ w.Flush.err = none ∧
    streamBytes w.Flush.out.ops = streamBytes w.out.ops ++ w.buf ∧ Accepts w.Flush.out x := by
  by_cases hb : w.buf = []
  · simp [Writer.Flush, herr, hb]
    exact accepts_mono _ _ _ (Nat.le_add_left _ _) h
  · obtain ⟨_, h2, h3, h4⟩ := write_ok w.out w.buf x h
    simp [Writer.Flush, herr, hb, h2, h3, h4]

theorem writeStringLoop_ok (fuel : Nat) (w : Writer) (s : Str) (x : Nat)
    (hbuf : w.buf = []) (herr : w.err = none) (h : Accepts w.out (s.length + x))
    (hf : s.length < fuel) :
    (Writer.WriteStringLoop fuel w s).1.buf = [] ∧
    (Writer.WriteStringLoop fuel w s).1.err = none ∧
    streamBytes (Writer.WriteStringLoop fuel w s).1.out.ops ++
        (Writer.WriteStringLoop fuel w s).2 = streamBytes w.out.ops ++ s ∧
    Accepts (Writer.WriteStringLoop fuel w s).1.out
      ((Writer.WriteStringLoop fuel w s).2.length + x) := by
  induction fuel generalizing w s with
  | zero => omega
  | succ n ih =>
    have hav : w.Available = bufSize := by simp [Writer.Available, hbuf]
    by_cases hlong : bufSize < s.length
    · have hcond : w.Available < s.length ∧ w.err = none := ⟨by rw [hav]; exact hlong, herr⟩
      have hstep : Writer.WriteStringLoop (n + 1) w s =
          Writer.WriteStringLoop n (Writer.Flush ⟨s.take bufSize, w.err, w.out⟩)
            (s.drop bufSize) := by
        rw [Writer.WriteStringLoop, if_pos hcond, hav, hbuf, List.nil_append]
      rw [hstep]
      have hlen : (s.take bufSize).length = bufSize := by
        simp [List.length_take]; omega
      have hdrop : (s.drop bufSize).length = s.length - bufSize := by simp
      have hacc : Accepts (⟨s.take bufSize, w.err, w.out⟩ : Writer).out
          ((⟨s.take bufSize, w.err, w.out⟩ : Writer).buf.length +
            ((s.drop bufSize).length + x)) := by
        refine accepts_mono _ _ _ ?_ h
        simp only [hlen, hdrop]; omega
      obtain ⟨f1, f2, f3, f4⟩ := flush_ok ⟨s.take bufSize, w.err, w.out⟩ _ herr hacc
      have hpos : 0 < bufSize := by decide
      obtain ⟨i1, i2, i3, i4⟩ := ih (Writer.Flush ⟨s.take bufSize, w.err, w.out⟩)
        (s.drop bufSize) f1 f2 f4 (by rw [hdrop]; omega)
      refine ⟨i1, i2, ?_, i4⟩
      rw [i3, f3]
      simp
    · have hcond : ¬ (w.Available < s.length ∧ w.err = none) := by
        rw [hav]; intro hc; exact hlong hc.1
      rw [Writer.WriteStringLoop, if_neg hcond]
      exact ⟨hbuf, herr, rfl, h⟩

theorem writeAndFlush_ok (w : Writer) (s : Str) (x : Nat)
    (hbuf : w.buf = []) (herr : w.err = none) (h : Accepts w.out (s.length + x)) :
    (writeAndFlush w s).buf = [] ∧ (writeAndFlush w s).err = none ∧
    streamBytes (writeAndFlush w s).out.ops = streamBytes w.out.ops ++ s ∧
    Accepts (writeAndFlush w s).out x := by
  obtain ⟨l1, l2, l3, l4⟩ := writeStringLoop_ok (s.length + 1) w s x hbuf herr h
    (Nat.lt_succ_self _)
  have hw : w.WriteString s =
      ⟨(Writer.WriteStringLoop (s.length + 1) w s).2, none,
        (Writer.WriteStringLoop (s.length + 1) w s).1.out⟩ := by
    simp [Writer.WriteString, l1, l2]
  obtain ⟨f1, f2, f3, f4⟩ := flush_ok (w.WriteString s) x (by rw [hw]) (by rw [hw]; exact l4)
  refine ⟨f1, f2, ?_, f4⟩
  rw [writeAndFlush, f3, hw]
  exact l3

theorem write_no_close (o : OutStream) (p : Str) (h : StreamOp.close ∉ o.ops) :
    StreamOp.close ∉ (o.Write p).1.ops := by
  rcases hr : o.room with _ | k
  · simp [OutStream.Write, hr, h]
  · by_cases hp : p.length ≤ k <;> simp [OutStream.Write, hr, hp, h]

theorem flush_no_close (w : Writer) (h : StreamOp.close ∉ w.out.ops) :
    StreamOp.close ∉ w.Flush.out.ops := by
  have hw := write_no_close w.out w.buf h
  unfold Writer.Flush
  split
  · exact h
  · split
    · exact h
    · split <;> exact hw

theorem writeStringLoop_no_close (fuel : Nat) (w : Writer) (s : Str)
    (h : StreamOp.close ∉ w.out.ops) :
    StreamOp.close ∉ (Writer.WriteStringLoop fuel w s).1.out.ops := by
  induction fuel generalizing w s with
  | zero => exact h
  | succ n ih =>
    unfold Writer.WriteStringLoop
    split
    · exact ih _ _ (flush_no_close _ h)
    · exact h

theorem writeAndFlush_no_close (w : Writer) (s : Str) (h : StreamOp.close ∉ w.out.ops) :
    StreamOp.close ∉ (writeAndFlush w s).out.ops := by
  apply flush_no_close
  have hl := writeStringLoop_no_close (s.length + 1) w s h
  unfold Writer.WriteString
  simp only
  split <;> exact hl

/-! ## The receive loop -/

theorem handleStreamLoop_spec (e : Err) (fuel : Nat) (s : Str) (out : List Event)
    (h : s.length < fuel) :
    ∃ (msgs : List Str) (tail : Str), handleStreamLoop e fuel s out =
        some (out ++ msgs.map Event.received ++ [Event.logStreamClosed e]) ∧
      s = msgs.flatten ++ tail ∧ space ∉ tail ∧ ∀ m ∈ msgs, IsFrame m := by
  induction fuel generalizing s out with
  | zero => omega
  | succ n ih =>
    rcases hr : ReadString space s with ⟨m, _ | r⟩
    · obtain ⟨hd, _⟩ := ReadString_none _ _ _ hr
      exact ⟨[], s, by simp [handleStreamLoop, hr], by simp, hd, by simp⟩
    · obtain ⟨t, ht, hm, hs⟩ := ReadString_some _ _ _ _ hr
      have hlen : r.length < n := by
        have := congrArg List.length hs
        simp at this; omega
      obtain ⟨msgs, tail, hrun, hjoin, htail, hfr⟩ := ih r (out ++ [Event.received m]) hlen
      refine ⟨m :: msgs, tail, ?_, ?_, htail, ?_⟩
      · simp [handleStreamLoop, hr, hrun]
      · rw [hs, hm, hjoin]; simp
      · intro x hx
        rcases List.mem_cons.mp hx with rfl | hx
        · exact ⟨t, ht, hm⟩
        · exact hfr x hx

theorem handleStreamLoop_fuel (e : Err) (f1 f2 : Nat) (s tail : Str) (out : List Event)
    (htail : space ∉ tail) (h1 : s.length < f1) (h2 : (s ++ tail).length < f2) :
    handleStreamLoop e f2 (s ++ tail) out = handleStreamLoop e f1 s out := by
  induction f1 generalizing f2 s out with
  | zero => omega
  | succ n ih =>
    obtain ⟨k, rfl⟩ : ∃ k, f2 = k + 1 := ⟨f2 - 1, by omega⟩
    rcases hr : ReadString space s with ⟨m, _ | r⟩
    · obtain ⟨hd, _⟩ := ReadString_none _ _ _ hr
      have hno : space ∉ s ++ tail := by
        simp only [List.mem_append, not_or]; exact ⟨hd, htail⟩
      simp [handleStreamLoop, hr, ReadString_no_delim _ _ hno]
    · obtain ⟨t, ht, hm, hs⟩ := ReadString_some _ _ _ _ hr
      have hr2 : ReadString space (s ++ tail) = (m, some (r ++ tail)) := by
        rw [hs, hm, List.append_assoc, List.cons_append]
        exact ReadString_delim _ _ _ ht
      have hlen : r.length < n := by
        have := congrArg List.length hs
        simp at this; omega
      have hlen2 : (r ++ tail).length < k := by
        have := congrArg List.length hs
        simp at this h2 ⊢; omega
      simp only [handleStreamLoop, hr, hr2]
      exact ih k r (out ++ [Event.received m]) hlen hlen2

theorem delivered_append (a b : List Event) : delivered (a ++ b) = delivered a ++ delivered b := by
  induction a with
  | nil => rfl
  | cons x xs ih => cases x <;> simp [delivered, ih]

theorem delivered_map_received (msgs : List Str) :
    delivered (msgs.map Event.received) = msgs := by
  induction msgs with
  | nil => rfl
  | cons x xs ih => simp [delivered, ih]

theorem handleStream_spec (stream : InStream) :
    ∃ (msgs : List Str) (tail : Str), handleStream stream =
        some (msgs.map Event.received ++ [Event.logStreamClosed stream.endErr]) ∧
      deliveredOn stream = msgs ∧
      stream.data = msgs.flatten ++ tail ∧ space ∉ tail ∧ ∀ m ∈ msgs, IsFrame m := by
  obtain ⟨msgs, tail, hrun, hjoin, htail, hfr⟩ :=
    handleStreamLoop_spec stream.endErr (stream.data.length + 1) stream.data []
      (Nat.lt_succ_self _)
  refine ⟨msgs, tail, by simpa [handleStream] using hrun, ?_, hjoin, htail, hfr⟩
  have : handleStream stream =
      some (msgs.map Event.received ++ [Event.logStreamClosed stream.endErr]) := by
    simpa [handleStream] using hrun
  simp [deliveredOn, this, delivered_append, delivered_map_received, delivered]

theorem handleStreamLoop_frame (e : Err) (n : Nat) (t : Str) (out : List Event)
    (h : space ∉ t) :
    handleStreamLoop e (n + 2) (t ++ [space]) out =
      some (out ++ [Event.received (t ++ [space]), Event.logStreamClosed e]) := by
  simp [handleStreamLoop, ReadString_delim _ _ _ h, ReadString]

theorem flatten_frames_last (msgs : List Str) (h : ∀ m ∈ msgs, IsFrame m) :
    msgs.flatten = [] ∨ msgs.flatten.getLast? = some space := by
  rcases List.eq_nil_or_concat msgs with rfl | ⟨init, last, rfl⟩
  · left; rfl
  · right
    obtain ⟨t, _, ht⟩ := h last (by simp)
    simp [ht]

theorem longest_of_tail (J tail p q : Str) (htail : space ∉ tail)
    (h : J ++ tail = p ++ q) (hp : p.getLast? = some space) : p.length ≤ J.length := by
  rcases List.append_eq_append_iff.mp h with ⟨a, ha, hq⟩ | ⟨c, hc, _⟩
  · rcases List.eq_nil_or_concat a with rfl | ⟨ai, al, rfl⟩
    · simp [ha]
    · exfalso
      rw [ha] at hp
      simp at hp
      apply htail
      rw [hq, hp]
      simp
  · rw [hc]; simp

theorem roundTrip_eq (M : Str) : roundTrip M = deliveredOn ⟨M, Err.EOF⟩ := by
  have h := (writeAndFlush_ok ⟨[], none, ⟨[], none, Err.EOF⟩⟩ M 0 rfl rfl
    (fun k hk => by simp at hk)).2.2.1
  simp only [streamBytes, List.nil_append] at h
  rw [roundTrip, h]

theorem handleStream_one_frame (t : Str) (e : Err) (h : space ∉ t) :
    handleStream ⟨t ++ [space], e⟩ =
        some [Event.received (t ++ [space]), Event.logStreamClosed e] ∧
      deliveredOn ⟨t ++ [space], e⟩ = [t ++ [space]] := by
  have hrun : handleStream ⟨t ++ [space], e⟩ =
      some [Event.received (t ++ [space]), Event.logStreamClosed e] := by
    simpa [handleStream] using handleStreamLoop_frame e t.length t [] h
  exact ⟨hrun, by simp [deliveredOn, hrun, delivered]⟩

/-! ## Claims about the receive loop -/

/-- C10: on every finite stream `handleStream` returns; the messages it delivered are
non-empty, each is a space-free text followed by one space, and their concatenation
is a leading part of the stream whose remainder has no space, is empty or ends in a
space, and is at least as long as every leading part of the stream that ends in a
space; a stream without a space delivers nothing. -/
theorem handleStream_characterisation (stream : InStream) :
    ∃ tr, handleStream stream = some tr ∧
      (∀ m ∈ delivered tr, m ≠ [] ∧ ∃ t, m = t ++ [space] ∧ space ∉ t) ∧
      (∃ tail, stream.data = (delivered tr).flatten ++ tail ∧ space ∉ tail) ∧
      ((delivered tr).flatten = [] ∨ (delivered tr).flatten.getLast? = some space) ∧
      (∀ p q, stream.data = p ++ q → p.getLast? = some space →
        p.length ≤ (delivered tr).flatten.length) ∧
      (space ∉ stream.data → delivered tr = []) := by
  obtain ⟨msgs, tail, hrun, _, hdata, htail, hfr⟩ := handleStream_spec stream
  refine ⟨_, hrun, ?_⟩
  have hd : delivered (msgs.map Event.received ++ [Event.logStreamClosed stream.endErr])
      = msgs := by
    simp [delivered_append, delivered_map_received, delivered]
  rw [hd]
  refine ⟨?_, ⟨tail, hdata, htail⟩, flatten_frames_last msgs hfr, ?_, ?_⟩
  · intro m hm
    obtain ⟨t, ht, hmt⟩ := hfr m hm
    exact ⟨by simp [hmt], t, hmt, ht⟩
  · intro p q hpq hp
    exact longest_of_tail _ tail p q htail (hdata.symm.trans hpq) hp
  · intro hno
    cases msgs with
    | nil => rfl
    | cons m ms =>
      exfalso
      obtain ⟨t, _, hmt⟩ := hfr m (by simp)
      apply hno
      rw [hdata, hmt]
      simp

/-- C3, as the code has it: for every space-free text `t`, the stream `t` followed by one
space delivers exactly one message, and that message is `t` with the space still at
its end. -/
theorem handleStream_single_frame (t : Str) (e : Err) (h : space ∉ t) :
    handleStream ⟨t ++ [space], e⟩ =
        some [Event.received (t ++ [space]), Event.logStreamClosed e] ∧
      deliveredOn ⟨t ++ [space], e⟩ = [t ++ [space]] :=
  handleStream_one_frame t e h

/-- Witness of C3 at the text hello. -/
theorem handleStream_single_frame_witness :
    space ∉ "hello".toList ∧
    (handleStream ⟨"hello".toList ++ [space], Err.EOF⟩ =
        some [Event.received ("hello".toList ++ [space]), Event.logStreamClosed Err.EOF] ∧
      deliveredOn ⟨"hello".toList ++ [space], Err.EOF⟩ = ["hello".toList ++ [space]]) :=
  ⟨by decide, handleStream_single_frame "hello".toList Err.EOF (by decide)⟩

/-- C3 as stated fails: on the stream `hello` plus one space the one message delivered is
`hello` plus the space, not `hello`. -/
theorem hello_keeps_delimiter :
    deliveredOn ⟨"hello ".toList, Err.EOF⟩ = ["hello ".toList] ∧
    deliveredOn ⟨"hello ".toList, Err.EOF⟩ ≠ ["hello".toList] := by
  decide

/-- C2, as the code has it: when the stream ends with a tail that holds no space, the run
of `handleStream` is the run on the stream without that tail, with the same final
log entry for the read error; what was delivered is a leading part of the stream
before the tail, so no part of the tail is delivered. -/
theorem handleStream_truncated_tail (body tail : Str) (e : Err) (hne : tail ≠ [])
    (hsp : space ∉ tail) :
    handleStream ⟨body ++ tail, e⟩ = handleStream ⟨body, e⟩ ∧
    ∃ tr, handleStream ⟨body ++ tail, e⟩ = some tr ∧
      tr.getLast? = some (Event.logStreamClosed e) ∧
      ∃ rest, body = (delivered tr).flatten ++ rest := by
  have _ := hne
  have heq : handleStream ⟨body ++ tail, e⟩ = handleStream ⟨body, e⟩ :=
    handleStreamLoop_fuel e (body.length + 1) ((body ++ tail).length + 1) body tail []
      hsp (Nat.lt_succ_self _) (Nat.lt_succ_self _)
  obtain ⟨msgs, rest, hrun, _, hdata, _, _⟩ := handleStream_spec ⟨body, e⟩
  refine ⟨heq, _, heq.trans hrun, by simp, rest, ?_⟩
  simpa [delivered_append, delivered_map_received, delivered] using hdata

/-- Witness of C2 at the stream `hi there`. -/
theorem handleStream_truncated_tail_witness :
    "there".toList ≠ [] ∧ space ∉ "there".toList ∧
    handleStream ⟨"hi ".toList ++ "there".toList, Err.EOF⟩ =
      handleStream ⟨"hi ".toList, Err.EOF⟩ :=
  ⟨by decide, by decide,
    (handleStream_truncated_tail "hi ".toList "there".toList Err.EOF (by decide)
      (by decide)).1⟩

/-- C2 as stated fails: the stream `hi there`, which ends inside a frame, and the stream
`hi ` that ends on a frame boundary give the same run, a delivery of `hi ` and then
the log entry for end of stream, so the two endings cannot be told apart. -/
theorem truncated_not_distinguished :
    handleStream ⟨"hi there".toList, Err.EOF⟩ =
      some [Event.received "hi ".toList, Event.logStreamClosed Err.EOF] ∧
    handleStream ⟨"hi ".toList, Err.EOF⟩ = handleStream ⟨"hi there".toList, Err.EOF⟩ := by
  decide

/-- C1, as the code has it: for every text, written and flushed the way `sendMessage`
does and read the way `handleStream` does, exactly that one message is delivered if
and only if the text is a space-free text followed by one space; in every case
each message delivered is a space-free text followed by one space, and what is
delivered, concatenated, is a leading part of the text whose missing rest holds
no space. -/
theorem roundTrip_iff (M : Str) :
    (roundTrip M = [M] ↔ ∃ t, space ∉ t ∧ M = t ++ [space]) ∧
    (∀ m ∈ roundTrip M, ∃ t, space ∉ t ∧ m = t ++ [space]) ∧
    ∃ tail, M = (roundTrip M).flatten ++ tail ∧ space ∉ tail := by
  rw [roundTrip_eq M]
  obtain ⟨msgs, tail, _, hdel, hdata, htail, hfr⟩ := handleStream_spec ⟨M, Err.EOF⟩
  refine ⟨⟨?_, ?_⟩, by rw [hdel]; exact hfr, tail, by rw [hdel]; exact hdata, htail⟩
  · intro h
    rw [hdel] at h
    exact hfr M (by simp [h])
  · rintro ⟨t, ht, rfl⟩
    exact (handleStream_one_frame t Err.EOF ht).2

/-- C1 as stated fails: the message `hi there` contains a space, and its round trip
delivers the single message `hi `, not the message itself. -/
theorem roundTrip_splits_message :
    space ∈ "hi there".toList ∧
    roundTrip "hi there".toList = ["hi ".toList] ∧
    roundTrip "hi there".toList ≠ ["hi there".toList] := by
  decide

/-! ## The send loop -/

theorem readLine_line (body : Str) (rest : List Str) (h : newline ∉ body) :
    readLine ((body ++ [newline]) :: rest) = (body ++ [newline], rest) := by
  have hne : body ++ [newline] ≠ [] := by simp
  have hr := ReadString_delim newline body [] h
  simp only [readLine, hne, if_false, hr]

theorem linesRead_lines (pre rest : List Str)
    (h : ∀ l ∈ pre, ∃ body, newline ∉ body ∧ l = body ++ [newline]) :
    linesRead pre.length (pre ++ rest) = pre ∧ stdinAfter pre.length (pre ++ rest) = rest := by
  induction pre with
  | nil => exact ⟨rfl, rfl⟩
  | cons l ls ih =>
    obtain ⟨body, hb, rfl⟩ := h l (by simp)
    obtain ⟨h1, h2⟩ := ih (fun x hx => h x (by simp [hx]))
    simp only [List.length_cons, List.cons_append, linesRead, stdinAfter,
      readLine_line body _ hb, h1, h2, and_self]

theorem sendMessageLoop_until_exit (k : Nat) (stdin : List Str) (fuel : Nat) (w : Writer)
    (out : List Event) (hpre : ∀ l ∈ linesRead k stdin, TrimSpace l ≠ exitCmd)
    (hs : TrimSpace (readLine (stdinAfter k stdin)).1 = exitCmd) (hf : k < fuel) :
    sendMessageLoop fuel stdin w out =
      ⟨out ++ List.replicate (k + 1) Event.promptMessage ++ [Event.exitingChat],
        some ((linesRead k stdin).foldl writeAndFlush w),
        (readLine (stdinAfter k stdin)).2, true⟩ := by
  induction k generalizing stdin fuel w out with
  | zero =>
    obtain ⟨f, rfl⟩ : ∃ f, fuel = f + 1 := ⟨fuel - 1, by omega⟩
    simp only [stdinAfter] at hs
    simp [sendMessageLoop, hs, linesRead, stdinAfter]
  | succ n ih =>
    obtain ⟨f, rfl⟩ : ∃ f, fuel = f + 1 := ⟨fuel - 1, by omega⟩
    have hl : TrimSpace (readLine stdin).1 ≠ exitCmd := hpre _ (by simp [linesRead])
    have hls : ∀ x ∈ linesRead n (readLine stdin).2, TrimSpace x ≠ exitCmd :=
      fun x hx => hpre x (by simp [linesRead, hx])
    simp only [stdinAfter] at hs
    simp only [sendMessageLoop, hl, if_false]
    rw [ih (readLine stdin).2 f _ _ hls hs (by omega)]
    simp [linesRead, stdinAfter, List.replicate_succ]

theorem foldl_writeAndFlush_ok (pre : List Str) (w : Writer) (x : Nat)
    (hbuf : w.buf = []) (herr : w.err = none)
    (h : Accepts w.out (pre.flatten.length + x)) :
    (pre.foldl writeAndFlush w).buf = [] ∧ (pre.foldl writeAndFlush w).err = none ∧
    streamBytes (pre.foldl writeAndFlush w).out.ops = streamBytes w.out.ops ++ pre.flatten ∧
    Accepts (pre.foldl writeAndFlush w).out x := by
  induction pre generalizing w with
  | nil => exact ⟨hbuf, herr, by simp, accepts_mono _ _ _ (Nat.le_add_left _ _) h⟩
  | cons l ls ih =>
    have h1 : Accepts w.out (l.length + (ls.flatten.length + x)) := by
      refine accepts_mono _ _ _ ?_ h
      simp; omega
    obtain ⟨a1, a2, a3, a4⟩ := writeAndFlush_ok w l _ hbuf herr h1
    obtain ⟨b1, b2, b3, b4⟩ := ih (writeAndFlush w l) a1 a2 a4
    refine ⟨b1, b2, ?_, b4⟩
    simp only [List.foldl_cons, b3, a3, List.flatten_cons, List.append_assoc]

theorem sendMessageLoop_no_close (fuel : Nat) (stdin : List Str) (w : Writer)
    (out : List Event) (h : StreamOp.close ∉ w.out.ops) (w1 : Writer)
    (hw : (sendMessageLoop fuel stdin w out).writer = some w1) :
    StreamOp.close ∉ w1.out.ops := by
  induction fuel generalizing stdin w out with
  | zero =>
    simp only [sendMessageLoop, Option.some.injEq] at hw
    rw [← hw]; exact h
  | succ n ih =>
    by_cases hx : TrimSpace (readLine stdin).1 = exitCmd
    · simp only [sendMessageLoop, hx, if_true, Option.some.injEq] at hw
      rw [← hw]; exact h
    · simp only [sendMessageLoop, hx, if_false] at hw
      exact ih _ _ _ (writeAndFlush_no_close w _ h) hw

/-- C7, as the code has it: with the stream opened, when every line up to and including
the first line that trims to `exit` reaches the loop as the result of its own read
of the console (a newline-free text and its newline), and the stream takes the bytes
of the lines before that line, then, once the loop has been given more iterations
than there are lines before that line, `sendMessage` has returned, the bytes on the
stream are exactly the lines before that line, concatenated in order, nothing is
left in the buffer, no write has failed, and the reads after that line are still
to come. -/
theorem sendMessage_sentinel (NewStream : PeerID → Except Err (Option Nat × Err))
    (peerID : PeerID) (room : Option Nat) (failErr : Err) (pre : List Str) (sentinel : Str)
    (post : List Str) (fuel : Nat) (hopen : NewStream peerID = .ok (room, failErr))
    (hlines : ∀ l ∈ pre ++ [sentinel], ∃ body, newline ∉ body ∧ l = body ++ [newline])
    (hroom : ∀ k, room = some k → pre.flatten.length ≤ k)
    (hpre : ∀ l ∈ pre, TrimSpace l ≠ exitCmd) (hs : TrimSpace sentinel = exitCmd)
    (hf : pre.length < fuel) :
    (sendMessage NewStream peerID fuel (pre ++ sentinel :: post)).returned = true ∧
    (sendMessage NewStream peerID fuel (pre ++ sentinel :: post)).stdin = post ∧
    ∃ w, (sendMessage NewStream peerID fuel (pre ++ sentinel :: post)).writer = some w ∧
      streamBytes w.out.ops = pre.flatten ∧ w.buf = [] ∧ w.err = none := by
  obtain ⟨body, hb, rfl⟩ := hlines sentinel (by simp)
  obtain ⟨h1, h2⟩ := linesRead_lines pre ((body ++ [newline]) :: post)
    (fun l hl => hlines l (by simp [hl]))
  have hrun := sendMessageLoop_until_exit pre.length (pre ++ (body ++ [newline]) :: post) fuel
    ⟨[], none, ⟨[], room, failErr⟩⟩ [] (by rw [h1]; exact hpre)
    (by rw [h2, readLine_line body post hb]; exact hs) hf
  rw [h1, h2, readLine_line body post hb] at hrun
  obtain ⟨f1, f2, f3, _⟩ := foldl_writeAndFlush_ok pre ⟨[], none, ⟨[], room, failErr⟩⟩ 0
    rfl rfl (fun k hk => by simpa using hroom k hk)
  have hsm : sendMessage NewStream peerID fuel (pre ++ (body ++ [newline]) :: post) =
      sendMessageLoop fuel (pre ++ (body ++ [newline]) :: post)
        ⟨[], none, ⟨[], room, failErr⟩⟩ [] := by
    simp only [sendMessage, hopen]
  rw [hsm, hrun]
  exact ⟨rfl, rfl, _, rfl, by simpa [streamBytes] using f3, f1, f2⟩

/-- Witness of C7: the lines `hi there`, ` exit `, `late`, each from its own read. -/
theorem sendMessage_sentinel_witness :
    ∃ w, (sendMessage (fun _ => .ok (none, Err.EOF)) "QmB".toList 2
        (["hi there\n".toList] ++ " exit \n".toList :: ["late\n".toList])).writer = some w ∧
      streamBytes w.out.ops = ["hi there\n".toList].flatten ∧ w.buf = [] ∧ w.err = none :=
  (sendMessage_sentinel (fun _ => .ok (none, Err.EOF)) "QmB".toList none Err.EOF
    ["hi there\n".toList] " exit \n".toList ["late\n".toList] 2 rfl
    (by
      intro l hl
      simp only [List.cons_append, List.nil_append, List.mem_cons, List.mem_singleton,
        List.not_mem_nil, or_false] at hl
      rcases hl with rfl | rfl
      · exact ⟨"hi there".toList, by decide, by decide⟩
      · exact ⟨" exit ".toList, by decide, by decide⟩)
    (fun k hk => by simp at hk) (by decide) (by decide) (by decide)).2.2

/-- C7 as stated fails.  When one read of the console returns the two lines `a` and `b`
and the next read the line `exit`, `sendMessage` returns with only `a` on the
stream: `b`, entered before the exit line, is never written.  When one read returns
`hi there`, ` exit ` and `late` together, five iterations have not returned: the
exit line is never seen.  When the stream takes no byte, the line `hi` entered
before `exit` does not reach the stream. -/
theorem sendMessage_loses_lines :
    ((sendMessage (fun _ => .ok (none, Err.EOF)) "QmB".toList 2
        ["a\nb\n".toList, "exit\n".toList]).returned = true ∧
      (sendMessage (fun _ => .ok (none, Err.EOF)) "QmB".toList 2
        ["a\nb\n".toList, "exit\n".toList]).writer.map (fun w => streamBytes w.out.ops)
        = some "a\n".toList) ∧
    (sendMessage (fun _ => .ok (none, Err.EOF)) "QmB".toList 5
        ["hi there\n exit \nlate\n".toList]).returned = false ∧
    ((sendMessage (fun _ => .ok (some 0, Err.other "reset".toList)) "QmB".toList 2
        ["hi\n".toList, "exit\n".toList]).returned = true ∧
      (sendMessage (fun _ => .ok (some 0, Err.other "reset".toList)) "QmB".toList 2
        ["hi\n".toList, "exit\n".toList]).writer.map (fun w => streamBytes w.out.ops)
        = some []) := by
  decide

/-- C9, as the code has it: with the stream opened, when the loop reads a line that trims
to `exit` after `k` lines that do not, then, given more than `k` iterations,
`sendMessage` prints the exit notice and returns, and no close is among the
operations it performed on the stream. -/
theorem sendMessage_exit_no_close (NewStream : PeerID → Except Err (Option Nat × Err))
    (peerID : PeerID) (room : Option Nat) (failErr : Err) (stdin : List Str) (k fuel : Nat)
    (hopen : NewStream peerID = .ok (room, failErr))
    (hpre : ∀ l ∈ linesRead k stdin, TrimSpace l ≠ exitCmd)
    (hs : TrimSpace (readLine (stdinAfter k stdin)).1 = exitCmd) (hf : k < fuel) :
    (sendMessage NewStream peerID fuel stdin).returned = true ∧
    (sendMessage NewStream peerID fuel stdin).console.getLast? = some Event.exitingChat ∧
    ∃ w, (sendMessage NewStream peerID fuel stdin).writer = some w ∧
      StreamOp.close ∉ w.out.ops := by
  have hrun := sendMessageLoop_until_exit k stdin fuel ⟨[], none, ⟨[], room, failErr⟩⟩ []
    hpre hs hf
  have hnc := sendMessageLoop_no_close fuel stdin ⟨[], none, ⟨[], room, failErr⟩⟩ []
    (by simp) ((linesRead k stdin).foldl writeAndFlush ⟨[], none, ⟨[], room, failErr⟩⟩)
    (by rw [hrun])
  have hsm : sendMessage NewStream peerID fuel stdin =
      sendMessageLoop fuel stdin ⟨[], none, ⟨[], room, failErr⟩⟩ [] := by
    simp only [sendMessage, hopen]
  rw [hsm, hrun]
  exact ⟨rfl, by simp, _, rfl, hnc⟩

/-- Witness of C9: the lines `hi`, `exit`. -/
theorem sendMessage_exit_no_close_witness :
    (sendMessage (fun _ => .ok (none, Err.EOF)) "QmB".toList 2
        ["hi\n".toList, "exit\n".toList]).returned = true ∧
    (sendMessage (fun _ => .ok (none, Err.EOF)) "QmB".toList 2
        ["hi\n".toList, "exit\n".toList]).console.getLast? = some Event.exitingChat ∧
    ∃ w, (sendMessage (fun _ => .ok (none, Err.EOF)) "QmB".toList 2
        ["hi\n".toList, "exit\n".toList]).writer = some w ∧ StreamOp.close ∉ w.out.ops :=
  sendMessage_exit_no_close (fun _ => .ok (none, Err.EOF)) "QmB".toList none Err.EOF
    ["hi\n".toList, "exit\n".toList] 1 2 rfl (by decide) (by decide) (by decide)

/-- C9 as stated fails: after the lines `hi` and `exit`, `sendMessage` has returned and
the only operation it performed on the stream is the write of `hi`; the last
operation is not a close. -/
theorem exit_leaves_stream_open :
    (sendMessage (fun _ => .ok (none, Err.EOF)) "QmB".toList 2
        ["hi\n".toList, "exit\n".toList]).returned = true ∧
    (sendMessage (fun _ => .ok (none, Err.EOF)) "QmB".toList 2
        ["hi\n".toList, "exit\n".toList]).writer.map (fun w => w.out.ops)
      = some [StreamOp.write "hi\n".toList 3] ∧
    (sendMessage (fun _ => .ok (none, Err.EOF)) "QmB".toList 2
        ["hi\n".toList, "exit\n".toList]).writer.map (fun w => w.out.ops.getLast?)
      ≠ some (some StreamOp.close) := by
  decide

/-! ## Discovery -/

/-- C6, as the code has it: for every PeerFound event, whatever connections the host has,
`HandlePeerFound` prints the notice and then calls `host.Connect` exactly once, with
the peer of the event. -/
theorem HandlePeerFound_always_connects (n : discoveryNotifee) (peerInfo : AddrInfo) :
    n.HandlePeerFound peerInfo = [Event.discovered peerInfo.ID, Event.connect peerInfo] ∧
    connectCalls (n.HandlePeerFound peerInfo) = [peerInfo] := by
  constructor <;> rfl

/-- C6 as stated fails: the host has a live connection to the peer `QmB`, and the event
for `QmB` still leads to a call of `host.Connect`. -/
theorem connected_peer_is_dialled_again :
    (⟨"QmB".toList, []⟩ : AddrInfo).ID ∈ notifeeConnected.host.conns ∧
    connectCalls (notifeeConnected.HandlePeerFound ⟨"QmB".toList, []⟩) =
      [⟨"QmB".toList, []⟩] := by
  decide

/-! ## `main` -/

theorem setupDHT_error (env : Env) (e : Err)
    (h : env.dhtNew = some e ∨ (env.dhtNew = none ∧ env.dhtBootstrap = some e)) :
    setupDHT env = ([], some e) := by
  rcases h with h | ⟨h1, h2⟩
  · simp [setupDHT, h]
  · simp [setupDHT, h1, h2]

/-- C4, as the code has it: when the host is created and `dht.New` or `Bootstrap` fails,
`setupDHT` returns that error and `main` ends in `log.Fatal` with the error (exit
status 1) right after mDNS setup: the stream handler is not registered, the input
loop is not entered, and the deferred close of the host does not run. -/
theorem main_dht_error_fatal (env : Env) (node : Host) (e : Err) (fuel : Nat)
    (stdin : List Str) (hhost : env.createHost = .ok node)
    (hdht : env.dhtNew = some e ∨ (env.dhtNew = none ∧ env.dhtBootstrap = some e)) :
    (setupDHT env).2 = some e ∧
    main env fuel stdin =
      ([Event.peerStarted node.ID] ++
        node.Addrs.map (fun addr => Event.listening (addr ++ "/p2p/".toList ++ node.ID)) ++
        setupMDNSDiscovery env ++ [Event.fatalDHT e], Status.fatal) ∧
    (∀ proto, Event.setStreamHandler proto ∉ (main env fuel stdin).1) ∧
    Event.promptAddress ∉ (main env fuel stdin).1 ∧
    Event.hostClose ∉ (main env fuel stdin).1 := by
  have hs := setupDHT_error env e hdht
  have hm : main env fuel stdin =
      ([Event.peerStarted node.ID] ++
        node.Addrs.map (fun addr => Event.listening (addr ++ "/p2p/".toList ++ node.ID)) ++
        setupMDNSDiscovery env ++ [Event.fatalDHT e], Status.fatal) := by
    simp [main, hhost, hs]
  refine ⟨by rw [hs], hm, ?_, ?_, ?_⟩
  · intro proto
    rw [hm]
    cases hmd : env.mdnsStart <;> simp [setupMDNSDiscovery, hmd]
  · rw [hm]
    cases hmd : env.mdnsStart <;> simp [setupMDNSDiscovery, hmd]
  · rw [hm]
    cases hmd : env.mdnsStart <;> simp [setupMDNSDiscovery, hmd]

/-- Witness of C4: `Bootstrap` fails. -/
theorem main_dht_error_fatal_witness :
    (main envBootstrapFails 10 ["exit".toList]).2 = Status.fatal ∧
    (∀ proto, Event.setStreamHandler proto ∉ (main envBootstrapFails 10 ["exit".toList]).1) :=
  have h := main_dht_error_fatal envBootstrapFails
    ⟨"QmA".toList, ["/ip4/127.0.0.1/tcp/4001".toList], []⟩ (Err.other "no peers".toList) 10
    ["exit".toList] rfl (Or.inr ⟨rfl, rfl⟩)
  ⟨by rw [h.2.1], h.2.2.1⟩

/-- C4 as stated fails: with `Bootstrap` failing, `main` performs the startup prints and
`log.Fatal`, and ends with exit status 1; no handler is registered and no prompt is
shown. -/
theorem dht_failure_is_fatal :
    main envBootstrapFails 10 ["exit".toList] =
      ([Event.peerStarted "QmA".toList,
        Event.listening "/ip4/127.0.0.1/tcp/4001/p2p/QmA".toList,
        Event.mdnsStarted, Event.fatalDHT (Err.other "no peers".toList)], Status.fatal) ∧
    Event.setStreamHandler chatProtocolID ∉ (main envBootstrapFails 10 ["exit".toList]).1 ∧
    Event.promptAddress ∉ (main envBootstrapFails 10 ["exit".toList]).1 := by
  decide

theorem cliIteration_prompt (env : Env) (before : List Event) (line : Str) :
    ∃ tl, (cliIteration env before line).1 = Event.promptAddress :: tl := by
  unfold cliIteration
  simp only
  split
  · exact ⟨_, rfl⟩
  · split
    · exact ⟨_, rfl⟩
    · split
      · exact ⟨_, rfl⟩
      · split <;> exact ⟨_, rfl⟩

theorem mainLoop_extends (env : Env) (fuel : Nat) (stdin : List Str) (tr : List Event) :
    ∃ suffix, (mainLoop env fuel stdin tr).1 = tr ++ suffix := by
  induction fuel generalizing stdin tr with
  | zero => exact ⟨[], by simp [mainLoop]⟩
  | succ n ih =>
    by_cases h : (cliIteration env tr (readLine stdin).1).2 = true
    · obtain ⟨suffix, hs⟩ := ih (readLine stdin).2
        (tr ++ (cliIteration env tr (readLine stdin).1).1)
      exact ⟨(cliIteration env tr (readLine stdin).1).1 ++ suffix, by
        simp only [mainLoop, h, if_true, hs, List.append_assoc]⟩
    · exact ⟨(cliIteration env tr (readLine stdin).1).1 ++ [Event.sleep, Event.hostClose], by
        simp only [mainLoop, h, if_false, List.append_assoc]; simp⟩

theorem mainLoop_prompt (env : Env) (fuel : Nat) (stdin : List Str) (tr : List Event) :
    ∃ suffix, (mainLoop env (fuel + 1) stdin tr).1 = tr ++ Event.promptAddress :: suffix := by
  obtain ⟨tl, htl⟩ := cliIteration_prompt env tr (readLine stdin).1
  by_cases h : (cliIteration env tr (readLine stdin).1).2 = true
  · obtain ⟨suffix, hs⟩ := mainLoop_extends env fuel (readLine stdin).2
      (tr ++ (cliIteration env tr (readLine stdin).1).1)
    rw [htl] at hs
    exact ⟨tl ++ suffix, by
      simp only [mainLoop, h, if_true, htl, hs, List.append_assoc, List.cons_append]⟩
  · exact ⟨tl ++ [Event.sleep, Event.hostClose], by
      simp only [mainLoop, h, if_false, htl, List.append_assoc, List.cons_append]; simp⟩

theorem mainLoop_next_prompt (env : Env) (fuel : Nat) (stdin : List Str)
    (before : List Event) (h : (cliIteration env before (readLine stdin).1).2 = true) :
    ∃ suffix, (mainLoop env (fuel + 2) stdin before).1 =
      before ++ (cliIteration env before (readLine stdin).1).1 ++
        Event.promptAddress :: suffix := by
  obtain ⟨suffix, hs⟩ := mainLoop_prompt env fuel (readLine stdin).2
    (before ++ (cliIteration env before (readLine stdin).1).1)
  refine ⟨suffix, ?_⟩
  rw [← hs]
  show (mainLoop env (fuel + 1 + 1) stdin before).1 = _
  rw [mainLoop]
  simp only [h, if_true]

/-- C5: for every input line that does not trim to `exit` and whose trimmed text fails
`NewMultiaddr`, or passes it and fails `AddrInfoFromP2pAddr`, the iteration of the
input loop prints the prompt and one error report and nothing else (no `Connect`
call, no send session) and does not leave the loop; whenever the loop reads that
line and has two iterations to run, its trace is what came before, the prompt and
the error report, and then the prompt of the next iteration. -/
theorem cliIteration_invalid_address (env : Env) (before : List Event) (line : Str)
    (hne : TrimSpace line ≠ exitCmd)
    (hbad : (∃ e, env.NewMultiaddr (TrimSpace line) = .error e) ∨
      ∃ a e, env.NewMultiaddr (TrimSpace line) = .ok a ∧
        env.AddrInfoFromP2pAddr a = .error e) :
    (∃ e, (cliIteration env before line).1 = [Event.promptAddress, Event.invalidMultiaddr e] ∨
      (cliIteration env before line).1 = [Event.promptAddress, Event.couldNotParse e]) ∧
    connectCalls (cliIteration env before line).1 = [] ∧
    sendSessions (cliIteration env before line).1 = [] ∧
    (cliIteration env before line).2 = true ∧
    ∀ stdin fuel, (readLine stdin).1 = line →
      ∃ suffix, (mainLoop env (fuel + 2) stdin before).1 =
        before ++ (cliIteration env before line).1 ++ Event.promptAddress :: suffix := by
  have key : (∃ e, (cliIteration env before line).1 =
        [Event.promptAddress, Event.invalidMultiaddr e] ∨
      (cliIteration env before line).1 = [Event.promptAddress, Event.couldNotParse e]) ∧
      (cliIteration env before line).2 = true := by
    rcases hbad with ⟨e, h⟩ | ⟨a, e, h1, h2⟩
    · exact ⟨⟨e, Or.inl (by simp [cliIteration, hne, h])⟩, by simp [cliIteration, hne, h]⟩
    · exact ⟨⟨e, Or.inr (by simp [cliIteration, hne, h1, h2])⟩,
        by simp [cliIteration, hne, h1, h2]⟩
  obtain ⟨⟨e, he⟩, hc⟩ := key
  refine ⟨⟨e, he⟩, ?_, ?_, hc, ?_⟩
  · rcases he with he | he <;> rw [he] <;> rfl
  · rcases he with he | he <;> rw [he] <;> rfl
  · rintro stdin fuel rfl
    exact mainLoop_next_prompt env fuel stdin before hc

/-- Witness of C5: the line `not-an-address`. -/
theorem cliIteration_invalid_address_witness :
    connectCalls (cliIteration (envOneAddr none) [] "not-an-address\n".toList).1 = [] ∧
    ∃ suffix, (mainLoop (envOneAddr none) 2 ["not-an-address\n".toList] []).1 =
      [] ++ (cliIteration (envOneAddr none) [] "not-an-address\n".toList).1 ++
        Event.promptAddress :: suffix :=
  have h := cliIteration_invalid_address (envOneAddr none) [] "not-an-address\n".toList
    (by decide) (Or.inl ⟨Err.other "bad".toList, rfl⟩)
  ⟨h.2.1, h.2.2.2.2 ["not-an-address\n".toList] 0 (by decide)⟩

/-- C8: for every input line that does not trim to `exit`, the iteration starts a send
session for a peer exactly when the trimmed line passes `NewMultiaddr` and
`AddrInfoFromP2pAddr`, `Connect` to the parsed peer returns no error, and the peer
is the parsed one; the iteration does not leave the loop, and whenever the loop
reads that line and has two iterations to run, the prompt of the next iteration
follows in its trace; when `Connect` returns an error the iteration consists of the
prompt, the `Connect` call and the error report, and no send session is started. -/
theorem cliIteration_send_gated (env : Env) (before : List Event) (line : Str)
    (hne : TrimSpace line ≠ exitCmd) :
    (∀ id, id ∈ sendSessions (cliIteration env before line).1 ↔
      ∃ a peerInfo, env.NewMultiaddr (TrimSpace line) = .ok a ∧
        env.AddrInfoFromP2pAddr a = .ok peerInfo ∧
        env.Connect (before ++ [Event.promptAddress]) peerInfo = none ∧
        id = peerInfo.ID) ∧
    (sendSessions (cliIteration env before line).1).length ≤ 1 ∧
    (cliIteration env before line).2 = true ∧
    (∀ stdin fuel, (readLine stdin).1 = line →
      ∃ suffix, (mainLoop env (fuel + 2) stdin before).1 =
        before ++ (cliIteration env before line).1 ++ Event.promptAddress :: suffix) ∧
    (∀ a peerInfo e, env.NewMultiaddr (TrimSpace line) = .ok a →
      env.AddrInfoFromP2pAddr a = .ok peerInfo →
      env.Connect (before ++ [Event.promptAddress]) peerInfo = some e →
        (cliIteration env before line).1 =
          [Event.promptAddress, Event.connect peerInfo, Event.couldNotConnect e] ∧
        sendSessions (cliIteration env before line).1 = []) := by
  have hc : (cliIteration env before line).2 = true := by
    rcases h1 : env.NewMultiaddr (TrimSpace line) with e | a
    · simp [cliIteration, hne, h1]
    · rcases h2 : env.AddrInfoFromP2pAddr a with e | peerInfo
      · simp [cliIteration, hne, h1, h2]
      · rcases h3 : env.Connect (before ++ [Event.promptAddress]) peerInfo with _ | e
        · simp [cliIteration, hne, h1, h2, h3]
        · simp [cliIteration, hne, h1, h2, h3]
  refine ⟨?_, ?_, hc, ?_, ?_⟩
  · intro id
    rcases h1 : env.NewMultiaddr (TrimSpace line) with e | a
    · simp [cliIteration, hne, h1, sendSessions]
    · rcases h2 : env.AddrInfoFromP2pAddr a with e | peerInfo
      · simp [cliIteration, hne, h1, h2, sendSessions]
      · rcases h3 : env.Connect (before ++ [Event.promptAddress]) peerInfo with _ | e
        · simp [cliIteration, hne, h1, h2, h3, sendSessions]
        · simp [cliIteration, hne, h1, h2, h3, sendSessions]
  · rcases h1 : env.NewMultiaddr (TrimSpace line) with e | a
    · simp [cliIteration, hne, h1, sendSessions]
    · rcases h2 : env.AddrInfoFromP2pAddr a with e | peerInfo
      · simp [cliIteration, hne, h1, h2, sendSessions]
      · rcases h3 : env.Connect (before ++ [Event.promptAddress]) peerInfo with _ | e
        · simp [cliIteration, hne, h1, h2, h3, sendSessions]
        · simp [cliIteration, hne, h1, h2, h3, sendSessions]
  · rintro stdin fuel rfl
    exact mainLoop_next_prompt env fuel stdin before hc
  · intro a peerInfo e h1 h2 h3
    have hev : cliIteration env before line =
        ([Event.promptAddress, Event.connect peerInfo, Event.couldNotConnect e], true) := by
      simp [cliIteration, hne, h1, h2, h3]
    exact ⟨by rw [hev], by rw [hev]; rfl⟩

/-- Witness of C8: the line `addr` with a successful `Connect`. -/
theorem cliIteration_send_gated_witness :
    TrimSpace "addr\n".toList ≠ exitCmd ∧
    ("QmB".toList ∈ sendSessions (cliIteration (envOneAddr none) [] "addr\n".toList).1 ↔
      ∃ a peerInfo, (envOneAddr none).NewMultiaddr (TrimSpace "addr\n".toList) = .ok a ∧
        (envOneAddr none).AddrInfoFromP2pAddr a = .ok peerInfo ∧
        (envOneAddr none).Connect ([] ++ [Event.promptAddress]) peerInfo = none ∧
        "QmB".toList = peerInfo.ID) :=
  ⟨by decide,
    (cliIteration_send_gated (envOneAddr none) [] "addr\n".toList (by decide)).1
      "QmB".toList⟩

end P2PChat
